import Mathlib

/-!
Shallow embedding of src/request.rs: the Request constructor with its
kebab-case header-key normalization (the convert_case crate), and the
send_request execution path over reqwest and serde_json, with the network
transport outcome and the JSON parser modelled as explicit parameters.
Strings are modelled as lists of Unicode scalar values (Nat); the casing
predicates follow the ASCII range, on which Rust's casing and this model
agree.
-/

/-- Strings are modelled as lists of Unicode scalar values. -/
abbrev HStr : Type := List Nat

/-- Encode a Lean string literal into the model. -/
def str (s : String) : HStr := s.data.map Char.toNat

/-- ASCII uppercase letter, as used by the convert_case boundary model. -/
def isUpp (c : Nat) : Prop := 65 ≤ c ∧ c ≤ 90

instance (c : Nat) : Decidable (isUpp c) := by unfold isUpp; exact inferInstance

/-- ASCII lowercase letter. -/
def isLowL (c : Nat) : Prop := 97 ≤ c ∧ c ≤ 122

instance (c : Nat) : Decidable (isLowL c) := by unfold isLowL; exact inferInstance

/-- ASCII digit. -/
def isDig (c : Nat) : Prop := 48 ≤ c ∧ c ≤ 57

instance (c : Nat) : Decidable (isDig c) := by unfold isDig; exact inferInstance

/-- Delimiter characters removed by convert_case word splitting:
underscore, hyphen, space. -/
def isSep (c : Nat) : Prop := c = 95 ∨ c = 45 ∨ c = 32

instance (c : Nat) : Decidable (isSep c) := by unfold isSep; exact inferInstance

/-- ASCII lowercasing of one character, as applied per character by the
Kebab case pattern. -/
def lowChar (c : Nat) : Nat := if isUpp c then c + 32 else c

/-- Two-character word boundaries of convert_case Boundary defaults:
LowerUpper, UpperDigit, DigitUpper, DigitLower. -/
def boundary2 (c d : Nat) : Prop :=
  (isLowL c ∧ isUpp d) ∨ (isUpp c ∧ isDig d) ∨ (isDig c ∧ isUpp d) ∨ (isDig c ∧ isLowL d)

instance (c d : Nat) : Decidable (boundary2 c d) := by unfold boundary2; exact inferInstance

/-- The Acronym boundary of convert_case: a split between two uppercase
letters that are followed by a lowercase letter. -/
def boundary3 (c d e : Nat) : Prop := isUpp c ∧ isUpp d ∧ isLowL e

instance (c d e : Nat) : Decidable (boundary3 c d e) := by unfold boundary3; exact inferInstance

/-- Word splitting of convert_case with the default boundaries: delimiter
characters are dropped and split the word; a case or letter/digit boundary
between adjacent characters splits without consuming.  The accumulator
holds the current word reversed. -/
def splitGo : List Nat → List Nat → List (List Nat)
  | [], acc => if acc = [] then [] else [acc.reverse]
  | c :: rest, acc =>
    if isSep c then
      if acc = [] then splitGo rest []
      else acc.reverse :: splitGo rest []
    else
      match rest with
      | [] => [(c :: acc).reverse]
      | d :: rest2 =>
        if boundary2 c d ∨ boundary3 c d (rest2.headD 0) then
          (c :: acc).reverse :: splitGo rest []
        else
          splitGo rest (c :: acc)

/-- Split a string into case words, convert_case default boundaries. -/
def splitWords (l : List Nat) : List (List Nat) := splitGo l []

/-- Join words with hyphens, the Kebab delimiter. -/
def joinH : List (List Nat) → List Nat
  | [] => []
  | [w] => w
  | w :: ws => w ++ 45 :: joinH ws

/-- Model of the convert_case call to_case(Case::Kebab): split into words
at the default boundaries, lowercase each word, join with hyphens. -/
def kebab (l : HStr) : HStr := joinH ((splitWords l).map (List.map lowChar))

/-- Insert into an association-list model of Rust HashMap: replacing the
entry when the key is present, appending otherwise.  Iteration order of a
HashMap is unspecified; maps are carried as lists in some iteration
order. -/
def hmInsert (m : List (HStr × HStr)) (k v : HStr) : List (HStr × HStr) :=
  if m.any (fun p => p.1 = k) then m.map (fun p => if p.1 = k then (k, v) else p)
  else m ++ [(k, v)]

/-- collect::‹HashMap› from an iterator of pairs: fold of inserts, a later
pair with an equal key overwriting an earlier one. -/
def hmCollect (l : List (HStr × HStr)) : List (HStr × HStr) :=
  l.foldl (fun m p => hmInsert m p.1 p.2) []

/-- The two request methods of the source. -/
inductive RequestMethod where
  | GET
  | POST
deriving DecidableEq

/-- The Request struct of src/request.rs. -/
structure Request where
  body : Option HStr
  headers : List (HStr × HStr)
  method : RequestMethod
  url : HStr
  params : List (HStr × HStr)

/-- Request::new: kebab-cases each header key, keeps values untouched, and
collects the mapped pairs into a fresh HashMap; all other fields are
stored as passed. -/
def Request.new (body : Option HStr) (headers : List (HStr × HStr))
    (method : RequestMethod) (url : HStr) (params : List (HStr × HStr)) : Request :=
  Request.mk body (hmCollect (headers.map (fun p => (kebab p.1, p.2)))) method url params

/-- A parsed URL: the part before the query string, and the query as a
list of key/value pairs.  Modelled from the url crate, reduced to what
Url::parse_with_params observably does to the query. -/
structure Url where
  base : HStr
  query : List (HStr × HStr)
deriving DecidableEq

/-- ASCII letter. -/
def isAlphaChar (c : Nat) : Prop := isUpp c ∨ isLowL c

instance (c : Nat) : Decidable (isAlphaChar c) := by unfold isAlphaChar; exact inferInstance

/-- Parse a query string: components split on 38, each split at the
first 61 into key and value; empty components are dropped. -/
def parseQuery (q : HStr) : List (HStr × HStr) :=
  (q.splitOn 38).filterMap
    (fun p => if p = [] then none
      else some (p.takeWhile (fun c => c ≠ 61), (p.dropWhile (fun c => c ≠ 61)).drop 1))

/-- Minimal model of Url::parse: an alphabetic nonempty scheme followed by
the three characters of colon-slash-slash, otherwise a parse error; the
query is everything after the first 63. -/
def urlParse (s : HStr) : Option Url :=
  if s.takeWhile isAlphaChar ≠ [] ∧ (s.dropWhile isAlphaChar).take 3 = [58, 47, 47] then
    some (Url.mk (s.takeWhile (fun c => c ≠ 63))
      (parseQuery ((s.dropWhile (fun c => c ≠ 63)).drop 1)))
  else none

/-- Url::parse_with_params: parse the URL and append the given pairs to
its query string. -/
def parseWithParams (s : HStr) (ps : List (HStr × HStr)) : Option Url :=
  match urlParse s with
  | none => none
  | some u => some (Url.mk u.base (u.query ++ ps))

/-- Valid character of an HTTP header name, per the http crate table:
letters, digits, and the token specials. -/
def validHeaderNameChar (c : Nat) : Prop :=
  isUpp c ∨ isLowL c ∨ isDig c ∨
    c = 33 ∨ c = 35 ∨ c = 36 ∨ c = 37 ∨ c = 38 ∨ c = 39 ∨ c = 42 ∨ c = 43 ∨
    c = 45 ∨ c = 46 ∨ c = 94 ∨ c = 95 ∨ c = 96 ∨ c = 124 ∨ c = 126

instance (c : Nat) : Decidable (validHeaderNameChar c) := by
  unfold validHeaderNameChar; exact inferInstance

/-- HeaderName parse succeeds on a nonempty string of valid name
characters. -/
def validHeaderName (s : HStr) : Prop := s ≠ [] ∧ ∀ c ∈ s, validHeaderNameChar c

instance (s : HStr) : Decidable (validHeaderName s) := by
  unfold validHeaderName; exact inferInstance

/-- HeaderValue parse accepts tab and any byte that is neither a control
character nor delete. -/
def validHeaderValueChar (c : Nat) : Prop := c = 9 ∨ (32 ≤ c ∧ c ≠ 127)

instance (c : Nat) : Decidable (validHeaderValueChar c) := by
  unfold validHeaderValueChar; exact inferInstance

/-- HeaderValue parse succeeds when every character is acceptable. -/
def validHeaderValue (s : HStr) : Prop := ∀ c ∈ s, validHeaderValueChar c

instance (s : HStr) : Decidable (validHeaderValue s) := by
  unfold validHeaderValue; exact inferInstance

/-- All stored headers of a request parse as header name/value pairs; the
send panics on the first failure otherwise. -/
def validHeaders (r : Request) : Prop :=
  ∀ p ∈ r.headers, validHeaderName p.1 ∧ validHeaderValue p.2

instance (r : Request) : Decidable (validHeaders r) := by
  unfold validHeaders; exact inferInstance

/-- The URL of the outbound call: a parsed URL for GET (after the
parameter merge), the raw stored string for POST, which reqwest parses
only at send time. -/
inductive UrlTarget where
  | parsed (u : Url)
  | raw (s : HStr)
deriving DecidableEq

/-- The outbound call as handed to the transport: method, target URL,
parsed header pairs (names lowercased by HeaderName), and the request
body, which the source never sets. -/
structure Outbound where
  method : RequestMethod
  target : UrlTarget
  headers : List (HStr × HStr)
  body : Option HStr
deriving DecidableEq

/-- The method match of send_request: GET unwraps parse_with_params on the
stored URL and params; POST passes the stored URL through untouched. -/
def buildTarget (r : Request) : Option UrlTarget :=
  match r.method with
  | RequestMethod.GET =>
    match parseWithParams r.url r.params with
    | none => none
    | some u => some (UrlTarget.parsed u)
  | RequestMethod.POST => some (UrlTarget.raw r.url)

/-- Building the outbound call before it is sent; none is a panic: an
unwrap failure on the GET URL merge, or on parsing a stored header name or
value.  No body is ever attached. -/
def buildOutbound (r : Request) : Option Outbound :=
  match buildTarget r with
  | none => none
  | some t =>
    if validHeaders r then
      some (Outbound.mk r.method t (r.headers.map (fun p => (p.1.map lowChar, p.2))) none)
    else none

/-- JSON documents, the serde_json Value type. -/
inductive Json where
  | null
  | bool (b : Bool)
  | num (n : Int)
  | string (s : HStr)
  | arr (xs : List Json)
  | obj (fs : List (HStr × Json))

/-- The Response struct of src/request.rs. -/
structure Response where
  status : Nat
  headers : List (HStr × HStr)
  body : Json

/-- The Error struct of src/request.rs. -/
structure Error where
  status : Option Nat
  url : Option HStr
deriving DecidableEq

/-- What the network transport reports back: success carries the status,
the response header pairs in iteration order (values as raw bytes), and
the body text when reqwest could decode it; failure carries the optional
status and URL the transport attributed to the error. -/
inductive TransportOutcome where
  | success (status : Nat) (headers : List (HStr × HStr)) (text : Option HStr)
  | failure (status : Option Nat) (url : Option HStr)

/-- HeaderValue::to_str: succeeds exactly when every byte is visible
ASCII, space or tab; the text then equals the bytes. -/
def headerValueToStr (v : HStr) : Option HStr :=
  if ∀ c ∈ v, (32 ≤ c ∧ c ≤ 126) ∨ c = 9 then some v else none

/-- Decoding all response header values with to_str, none as soon as one
value fails (the unwrap in the header map panics). -/
def headersDecode : List (HStr × HStr) → Option (List (HStr × HStr))
  | [] => some []
  | p :: t =>
    match headerValueToStr p.2, headersDecode t with
    | some v, some t2 => some ((p.1, v) :: t2)
    | _, _ => none

/-- send_request of src/request.rs, with the transport outcome and the
serde_json parser as explicit parameters.  none models a panic; the
Except value is the Result returned to the caller.  Panics are checked in
source order: the outbound build (URL merge, header parsing), then on a
transport success the response header decoding, the body text read, and
the JSON parse. -/
def send_request (r : Request) (oc : TransportOutcome) (jp : HStr → Option Json) :
    Option (Except Error Response) :=
  match buildOutbound r with
  | none => none
  | some _ =>
    match oc with
    | TransportOutcome.failure st u => some (Except.error (Error.mk st u))
    | TransportOutcome.success st hs txt =>
      match headersDecode hs with
      | none => none
      | some hs2 =>
        match txt with
        | none => none
        | some t =>
          match jp t with
          | none => none
          | some j => some (Except.ok (Response.mk st (hmCollect hs2) j))

/-- No word boundary between two adjacent characters. -/
def noB (c d : Nat) : Prop := ¬ boundary2 c d

lemma lowChar_fix (c : Nat) (h : ¬ isUpp c) : lowChar c = c := if_neg h

lemma isUpp_lowChar (c : Nat) : ¬ isUpp (lowChar c) := by
  simp only [lowChar, isUpp]
  split_ifs with h <;> omega

lemma isSep_lowChar (c : Nat) (h : ¬ isSep c) : ¬ isSep (lowChar c) := by
  simp only [lowChar, isUpp, isSep] at *
  split_ifs with h2 <;> omega

lemma noB_lowChar (c d : Nat) (h : noB c d) : noB (lowChar c) (lowChar d) := by
  simp only [noB, boundary2, lowChar, isUpp, isLowL, isDig] at *
  split_ifs <;> omega

lemma noB_sep45 (c : Nat) : noB c 45 := by
  simp only [noB, boundary2, isUpp, isLowL, isDig]
  omega

lemma boundary3_not_upp (c d e : Nat) (h : ¬ isUpp c) : ¬ boundary3 c d e :=
  fun h2 => h h2.1

lemma chain_snoc (acc : List Nat) (c : Nat)
    (h2 : List.Chain' noB acc.reverse)
    (hl : ∀ a, acc.head? = some a → noB a c) :
    List.Chain' noB (acc.reverse ++ [c]) := by
  rw [List.chain'_append]
  refine ⟨h2, List.chain'_singleton c, ?_⟩
  intro x hx y hy
  rw [List.getLast?_reverse] at hx
  simp only [List.head?_cons, Option.mem_def, Option.some.injEq] at hy
  subst hy
  exact hl x hx

lemma splitGo_accum (w : List Nat) : ∀ (acc rest : List Nat),
    (∀ c ∈ w, ¬ isUpp c ∧ ¬ isSep c) →
    List.Chain' noB w →
    (rest = [] ∨ ∃ r, rest = 45 :: r) →
    splitGo (w ++ rest) acc = splitGo rest (w.reverse ++ acc) := by
  induction w with
  | nil => intro acc rest h1 h2 h3; simp
  | cons c w2 ih =>
    intro acc rest h1 h2 h3
    have hc := h1 c (List.mem_cons_self c w2)
    rcases hw2 : w2 with _ | ⟨d, w3⟩
    · subst hw2
      rcases h3 with h3 | ⟨r, h3⟩ <;> subst h3
      · simp only [List.append_nil]
        rw [splitGo.eq_2, if_neg hc.2, splitGo.eq_1]
        simp
      · simp only [List.cons_append, List.nil_append]
        rw [splitGo.eq_3, if_neg hc.2, if_neg]
        · simp
        · rintro (hb | hb)
          · exact noB_sep45 c hb
          · exact boundary3_not_upp c 45 _ hc.1 hb
    · subst hw2
      have hnb : noB c d := (List.chain'_cons.mp h2).1
      simp only [List.cons_append]
      rw [splitGo.eq_3, if_neg hc.2, if_neg]
      · rw [← List.cons_append, ih (c :: acc) rest
          (fun x hx => h1 x (List.mem_cons_of_mem c hx)) h2.tail h3]
        congr 1
        simp
      · rintro (hb | hb)
        · exact hnb hb
        · exact boundary3_not_upp c d _ hc.1 hb

lemma splitGo_sep (r acc : List Nat) :
    splitGo (45 :: r) acc = if acc = [] then splitGo r [] else acc.reverse :: splitGo r [] := by
  have h45 : isSep 45 := Or.inr (Or.inl rfl)
  rcases r with _ | ⟨d, r2⟩
  · rw [splitGo.eq_2, if_pos h45]
  · rw [splitGo.eq_3, if_pos h45]

/-- A word produced by splitting: nonempty, free of delimiters, and with
no boundary between adjacent characters. -/
def rawOk (w : List Nat) : Prop :=
  w ≠ [] ∧ (∀ c ∈ w, ¬ isSep c) ∧ List.Chain' noB w

lemma snocWordOk (acc : List Nat) (c : Nat)
    (h1 : ∀ x ∈ acc, ¬ isSep x) (h2 : List.Chain' noB acc.reverse)
    (hsep : ¬ isSep c) (hlink : ∀ a, acc.head? = some a → noB a c) :
    rawOk ((c :: acc).reverse) := by
  rw [List.reverse_cons]
  refine ⟨by simp, ?_, chain_snoc acc c h2 hlink⟩
  intro x hx
  rcases List.mem_append.mp hx with hx | hx
  · exact h1 x (List.mem_reverse.mp hx)
  · simp only [List.mem_singleton] at hx
    subst hx
    exact hsep

lemma splitGo_rawOk : ∀ (l acc : List Nat),
    (∀ c ∈ acc, ¬ isSep c) →
    List.Chain' noB acc.reverse →
    (∀ a c, acc.head? = some a → l.head? = some c → ¬ isSep c → noB a c) →
    ∀ w ∈ splitGo l acc, rawOk w := by
  intro l
  induction l with
  | nil =>
    intro acc h1 h2 h3 w hw
    rw [splitGo.eq_1] at hw
    split_ifs at hw with he
    · simp at hw
    · simp only [List.mem_singleton] at hw
      subst hw
      exact ⟨by simpa using he, fun c hc => h1 c (List.mem_reverse.mp hc), h2⟩
  | cons c rest ih =>
    intro acc h1 h2 h3 w hw
    by_cases hsep : isSep c
    · rcases rest with _ | ⟨d, r2⟩
      · rw [splitGo.eq_2, if_pos hsep] at hw
        split_ifs at hw with he
        · exact ih [] (by simp) (by simp) (fun a x ha => by simp at ha) w hw
        · rcases List.mem_cons.mp hw with hw | hw
          · subst hw
            exact ⟨by simpa using he, fun x hx => h1 x (List.mem_reverse.mp hx), h2⟩
          · exact ih [] (by simp) (by simp) (fun a x ha => by simp at ha) w hw
      · rw [splitGo.eq_3, if_pos hsep] at hw
        split_ifs at hw with he
        · exact ih [] (by simp) (by simp) (fun a x ha => by simp at ha) w hw
        · rcases List.mem_cons.mp hw with hw | hw
          · subst hw
            exact ⟨by simpa using he, fun x hx => h1 x (List.mem_reverse.mp hx), h2⟩
          · exact ih [] (by simp) (by simp) (fun a x ha => by simp at ha) w hw
    · rcases rest with _ | ⟨d, r2⟩
      · rw [splitGo.eq_2, if_neg hsep] at hw
        simp only [List.mem_singleton] at hw
        subst hw
        exact snocWordOk acc c h1 h2 hsep (fun a ha => h3 a c ha rfl hsep)
      · rw [splitGo.eq_3, if_neg hsep] at hw
        split_ifs at hw with hb
        · rcases List.mem_cons.mp hw with hw | hw
          · subst hw
            exact snocWordOk acc c h1 h2 hsep (fun a ha => h3 a c ha rfl hsep)
          · exact ih [] (by simp) (by simp) (fun a x ha => by simp at ha) w hw
        · refine ih (c :: acc) ?_ ?_ ?_ w hw
          · intro x hx
            rcases List.mem_cons.mp hx with hx | hx
            · subst hx
              exact hsep
            · exact h1 x hx
          · rw [List.reverse_cons]
            exact chain_snoc acc c h2 (fun a ha => h3 a c ha rfl hsep)
          · intro a x ha hx hxs
            simp only [List.head?_cons, Option.some.injEq] at ha hx
            subst ha
            subst hx
            intro hbb
            exact hb (Or.inl hbb)

lemma splitWords_rawOk (l : List Nat) : ∀ w ∈ splitWords l, rawOk w :=
  splitGo_rawOk l [] (by simp) (by simp) (fun a c ha => by simp at ha)

lemma splitWords_joinH : ∀ ws : List (List Nat),
    (∀ w ∈ ws, w ≠ [] ∧ (∀ c ∈ w, ¬ isUpp c ∧ ¬ isSep c) ∧ List.Chain' noB w) →
    splitWords (joinH ws) = ws := by
  intro ws
  induction ws with
  | nil => intro h; rfl
  | cons w ws2 ih =>
    intro h
    obtain ⟨hne, hchars, hchain⟩ := h w (List.mem_cons_self w ws2)
    rcases ws2 with _ | ⟨w2, ws3⟩
    · show splitGo (joinH [w]) [] = [w]
      have hj : joinH [w] = w := rfl
      rw [hj]
      have hacc := splitGo_accum w [] [] hchars hchain (Or.inl rfl)
      simp only [List.append_nil] at hacc
      rw [hacc, splitGo.eq_1, if_neg (by simpa using hne)]
      simp
    · show splitGo (joinH (w :: w2 :: ws3)) [] = w :: w2 :: ws3
      have hj : joinH (w :: w2 :: ws3) = w ++ 45 :: joinH (w2 :: ws3) := rfl
      rw [hj]
      have hacc := splitGo_accum w [] (45 :: joinH (w2 :: ws3)) hchars hchain
        (Or.inr ⟨joinH (w2 :: ws3), rfl⟩)
      rw [hacc, splitGo_sep, if_neg (by simpa using hne)]
      rw [List.append_nil, List.reverse_reverse]
      have hrec := ih (fun x hx => h x (List.mem_cons_of_mem w hx))
      rw [splitWords] at hrec
      rw [hrec]

lemma mapLow_fix (w : List Nat) (h : ∀ c ∈ w, ¬ isUpp c) : w.map lowChar = w := by
  induction w with
  | nil => rfl
  | cons c t ih =>
    simp only [List.map_cons]
    rw [lowChar_fix c (h c (List.mem_cons_self c t)),
      ih (fun x hx => h x (List.mem_cons_of_mem c hx))]

lemma lowWordOk (w : List Nat) (h : rawOk w) :
    w.map lowChar ≠ [] ∧ (∀ c ∈ w.map lowChar, ¬ isUpp c ∧ ¬ isSep c) ∧
      List.Chain' noB (w.map lowChar) := by
  obtain ⟨hne, hchars, hchain⟩ := h
  refine ⟨by simpa using hne, ?_, ?_⟩
  · intro c hc
    rw [List.mem_map] at hc
    obtain ⟨a, ha, rfl⟩ := hc
    exact ⟨isUpp_lowChar a, isSep_lowChar a (hchars a ha)⟩
  · rw [List.chain'_map]
    exact hchain.imp (fun a b hab => noB_lowChar a b hab)

/-- The kebab-case conversion is idempotent. -/
lemma kebab_idem (l : HStr) : kebab (kebab l) = kebab l := by
  have hws : ∀ w ∈ (splitWords l).map (List.map lowChar),
      w ≠ [] ∧ (∀ c ∈ w, ¬ isUpp c ∧ ¬ isSep c) ∧ List.Chain' noB w := by
    intro w hw
    rw [List.mem_map] at hw
    obtain ⟨a, ha, rfl⟩ := hw
    exact lowWordOk a (splitWords_rawOk l a ha)
  show joinH ((splitWords (kebab l)).map (List.map lowChar)) = kebab l
  rw [show kebab l = joinH ((splitWords l).map (List.map lowChar)) from rfl]
  rw [splitWords_joinH ((splitWords l).map (List.map lowChar)) hws]
  congr 1
  refine List.map_congr_left ?_ |>.trans (List.map_id _)
  intro w hw
  exact mapLow_fix w (fun c hc => ((hws w hw).2.1 c hc).1)

lemma hmInsert_mem (m : List (HStr × HStr)) (k v : HStr) (q : HStr × HStr)
    (hq : q ∈ hmInsert m k v) : q ∈ m ∨ q = (k, v) := by
  unfold hmInsert at hq
  split_ifs at hq with h
  · rw [List.mem_map] at hq
    obtain ⟨p, hp, hpq⟩ := hq
    by_cases hpk : p.1 = k
    · rw [if_pos hpk] at hpq
      exact Or.inr hpq.symm
    · rw [if_neg hpk] at hpq
      exact Or.inl (hpq ▸ hp)
  · rcases List.mem_append.mp hq with h2 | h2
    · exact Or.inl h2
    · exact Or.inr (by simpa using h2)

lemma hmInsert_keyMem_of (m : List (HStr × HStr)) (k v k2 : HStr)
    (h : ∃ w, (k2, w) ∈ m) : ∃ w, (k2, w) ∈ hmInsert m k v := by
  obtain ⟨w, hw⟩ := h
  unfold hmInsert
  split_ifs with hh
  · by_cases hk : k2 = k
    · subst hk
      exact ⟨v, List.mem_map.mpr ⟨(k2, w), hw, by rw [if_pos rfl]⟩⟩
    · exact ⟨w, List.mem_map.mpr ⟨(k2, w), hw, by rw [if_neg hk]⟩⟩
  · exact ⟨w, List.mem_append_left _ hw⟩

lemma hmInsert_keyMem_self (m : List (HStr × HStr)) (k v : HStr) :
    ∃ w, (k, w) ∈ hmInsert m k v := by
  unfold hmInsert
  split_ifs with hh
  · rw [List.any_eq_true] at hh
    obtain ⟨p, hp, hpk⟩ := hh
    exact ⟨v, List.mem_map.mpr ⟨p, hp, by rw [if_pos (of_decide_eq_true hpk)]⟩⟩
  · exact ⟨v, List.mem_append_right _ (by simp)⟩

lemma hmCollect_step_mem : ∀ (l acc : List (HStr × HStr)) (q : HStr × HStr),
    q ∈ l.foldl (fun m p => hmInsert m p.1 p.2) acc → q ∈ acc ∨ q ∈ l := by
  intro l
  induction l with
  | nil => intro acc q h; exact Or.inl h
  | cons p t ih =>
    intro acc q h
    rw [List.foldl_cons] at h
    rcases ih (hmInsert acc p.1 p.2) q h with h2 | h2
    · rcases hmInsert_mem acc p.1 p.2 q h2 with h3 | h3
      · exact Or.inl h3
      · exact Or.inr (by simp [h3])
    · exact Or.inr (List.mem_cons_of_mem p h2)

lemma hmCollect_mem (l : List (HStr × HStr)) (q : HStr × HStr)
    (h : q ∈ hmCollect l) : q ∈ l := by
  rcases hmCollect_step_mem l [] q h with h2 | h2
  · simp at h2
  · exact h2

lemma foldl_keyMem : ∀ (l acc : List (HStr × HStr)) (k : HStr),
    (∃ w, (k, w) ∈ acc) → ∃ w, (k, w) ∈ l.foldl (fun m p => hmInsert m p.1 p.2) acc := by
  intro l
  induction l with
  | nil => intro acc k h; exact h
  | cons p t ih =>
    intro acc k h
    rw [List.foldl_cons]
    exact ih _ k (hmInsert_keyMem_of acc p.1 p.2 k h)

lemma hmCollect_key : ∀ (l acc : List (HStr × HStr)) (p : HStr × HStr),
    p ∈ l → ∃ w, (p.1, w) ∈ l.foldl (fun m p => hmInsert m p.1 p.2) acc := by
  intro l
  induction l with
  | nil => intro acc p h; simp at h
  | cons q t ih =>
    intro acc p h
    rw [List.foldl_cons]
    rcases List.mem_cons.mp h with h2 | h2
    · subst h2
      exact foldl_keyMem t _ p.1 (hmInsert_keyMem_self acc p.1 p.2)
    · exact ih _ p h2

lemma hmInsert_notMem (acc : List (HStr × HStr)) (k v : HStr)
    (h : ∀ q ∈ acc, q.1 ≠ k) : hmInsert acc k v = acc ++ [(k, v)] := by
  unfold hmInsert
  rw [if_neg]
  intro hc
  rw [List.any_eq_true] at hc
  obtain ⟨p, hp, hpk⟩ := hc
  exact h p hp (of_decide_eq_true hpk)

lemma foldl_nodup : ∀ (l acc : List (HStr × HStr)),
    (∀ p ∈ l, ∀ q ∈ acc, q.1 ≠ p.1) → (l.map Prod.fst).Nodup →
    l.foldl (fun m p => hmInsert m p.1 p.2) acc = acc ++ l := by
  intro l
  induction l with
  | nil => intro acc h1 h2; simp
  | cons p t ih =>
    intro acc h1 h2
    rw [List.foldl_cons,
      hmInsert_notMem acc p.1 p.2 (fun q hq => h1 p (List.mem_cons_self p t) q hq)]
    rw [List.map_cons, List.nodup_cons] at h2
    rw [ih (acc ++ [(p.1, p.2)]) ?_ h2.2]
    · simp
    · intro x hx q hq
      rcases List.mem_append.mp hq with hq | hq
      · exact h1 x (List.mem_cons_of_mem p hx) q hq
      · simp only [List.mem_singleton] at hq
        subst hq
        intro he
        exact h2.1 (he ▸ List.mem_map_of_mem Prod.fst hx)

lemma hmCollect_nodup (l : List (HStr × HStr)) (h : (l.map Prod.fst).Nodup) :
    hmCollect l = l := by
  unfold hmCollect
  rw [foldl_nodup l [] (fun p hp q hq => by simp at hq) h]
  simp

/-- C1: every header pair stored by Request::new comes from an input pair
with the key kebab-cased and the value unchanged; every input key is
present in its kebab-case form; every stored key is already kebab-cased
(the invariant); and when the kebab-cased keys do not collide, every input
pair is stored exactly as its kebab-cased transform. -/
theorem c1_header_normalization (b : Option HStr) (h : List (HStr × HStr))
    (m : RequestMethod) (u : HStr) (p : List (HStr × HStr)) :
    (∀ q ∈ (Request.new b h m u p).headers, ∃ q0 ∈ h, q.1 = kebab q0.1 ∧ q.2 = q0.2)
    ∧ (∀ q0 ∈ h, ∃ w, (kebab q0.1, w) ∈ (Request.new b h m u p).headers)
    ∧ (∀ q ∈ (Request.new b h m u p).headers, kebab q.1 = q.1)
    ∧ ((h.map (fun q => kebab q.1)).Nodup →
        ∀ q0 ∈ h, (kebab q0.1, q0.2) ∈ (Request.new b h m u p).headers) := by
  have hsrc : ∀ q ∈ (Request.new b h m u p).headers, ∃ q0 ∈ h, q.1 = kebab q0.1 ∧ q.2 = q0.2 := by
    intro q hq
    have hq2 : q ∈ h.map (fun q => (kebab q.1, q.2)) := hmCollect_mem _ q hq
    rw [List.mem_map] at hq2
    obtain ⟨q0, hq0, hq0e⟩ := hq2
    exact ⟨q0, hq0, by rw [← hq0e], by rw [← hq0e]⟩
  refine ⟨hsrc, ?_, ?_, ?_⟩
  · intro q0 hq0
    exact hmCollect_key (h.map (fun q => (kebab q.1, q.2))) [] (kebab q0.1, q0.2)
      (List.mem_map.mpr ⟨q0, hq0, rfl⟩)
  · intro q hq
    obtain ⟨q0, _, hk, _⟩ := hsrc q hq
    rw [hk, kebab_idem]
  · intro hnd q0 hq0
    show (kebab q0.1, q0.2) ∈ hmCollect (h.map (fun q => (kebab q.1, q.2)))
    rw [hmCollect_nodup]
    · exact List.mem_map.mpr ⟨q0, hq0, rfl⟩
    · rw [List.map_map]
      exact hnd

/-- C1 witness: the key randomHeader of the source tests is stored as
random-header with its value unchanged. -/
theorem c1_header_normalization_witness :
    kebab (str "randomHeader") = str "random-header"
    ∧ (kebab (str "randomHeader"), str "1337") ∈
        (Request.new none [(str "randomHeader", str "1337")] RequestMethod.GET [] []).headers :=
  ⟨by decide,
    (c1_header_normalization none [(str "randomHeader", str "1337")]
        RequestMethod.GET [] []).2.2.2 (by decide) (str "randomHeader", str "1337") (by decide)⟩

/-- C7: Request::new is total: for every combination of inputs it yields
the record with the kebab-collected headers and every other field exactly
as passed; no validation of the URL or the parameter values happens and
there is no error path (the result type is Request itself, not an
Option or Except). -/
theorem c7_new_total (b : Option HStr) (h : List (HStr × HStr)) (m : RequestMethod)
    (u : HStr) (p : List (HStr × HStr)) :
    Request.new b h m u p =
      Request.mk b (hmCollect (h.map (fun q => (kebab q.1, q.2)))) m u p := rfl

/-- C10: Request::new transforms only the headers mapping: the body,
method, url and params fields of the constructed request are exactly the
values passed in. -/
theorem c10_frame (b : Option HStr) (h : List (HStr × HStr)) (m : RequestMethod)
    (u : HStr) (p : List (HStr × HStr)) :
    (Request.new b h m u p).body = b ∧ (Request.new b h m u p).method = m
    ∧ (Request.new b h m u p).url = u ∧ (Request.new b h m u p).params = p :=
  ⟨rfl, rfl, rfl, rfl⟩

/-- C8: the kebab-case conversion is idempotent, and a header map whose
keys are already kebab-case (and distinct) is stored unchanged by
Request::new. -/
theorem c8_idempotent :
    (∀ s : HStr, kebab (kebab s) = kebab s)
    ∧ ∀ (b : Option HStr) (h : List (HStr × HStr)) (m : RequestMethod) (u : HStr)
        (p : List (HStr × HStr)), (∀ q ∈ h, kebab q.1 = q.1) → (h.map Prod.fst).Nodup →
        (Request.new b h m u p).headers = h := by
  refine ⟨kebab_idem, ?_⟩
  intro b h m u p hk hnd
  show hmCollect (h.map (fun q => (kebab q.1, q.2))) = h
  have hmap : h.map (fun q => (kebab q.1, q.2)) = h := by
    refine (List.map_congr_left ?_).trans (List.map_id h)
    intro q hq
    rw [hk q hq]
    exact Prod.mk.eta
  rw [hmap]
  exact hmCollect_nodup h hnd

/-- C8 witness: an already kebab-cased key round-trips unchanged. -/
theorem c8_idempotent_witness :
    kebab (kebab (str "random-header")) = kebab (str "random-header")
    ∧ (Request.new none [(str "random-header", str "1337")] RequestMethod.GET []
        []).headers = [(str "random-header", str "1337")] :=
  ⟨c8_idempotent.1 (str "random-header"),
    c8_idempotent.2 none [(str "random-header", str "1337")] RequestMethod.GET [] []
      (by decide) (by decide)⟩

/-- C9: kebab-cased keys can collide: the two distinct keys fooBar and
foo-bar share one kebab form, the constructed request stores strictly
fewer header entries than were supplied, and which value survives depends
on the map iteration order. -/
theorem c9_collision :
    str "fooBar" ≠ str "foo-bar"
    ∧ kebab (str "fooBar") = kebab (str "foo-bar")
    ∧ (Request.new none [(str "fooBar", str "1"), (str "foo-bar", str "2")]
        RequestMethod.GET [] []).headers.length < 2
    ∧ (Request.new none [(str "fooBar", str "1"), (str "foo-bar", str "2")]
        RequestMethod.GET [] []).headers = [(str "foo-bar", str "2")]
    ∧ (Request.new none [(str "foo-bar", str "2"), (str "fooBar", str "1")]
        RequestMethod.GET [] []).headers = [(str "foo-bar", str "1")] :=
  ⟨by decide, by decide, by decide, by decide, by decide⟩

lemma send_build_none (r : Request) (oc : TransportOutcome) (jp : HStr → Option Json)
    (hb : buildOutbound r = none) : send_request r oc jp = none := by
  unfold send_request
  rw [hb]

lemma send_failure (r : Request) (ob : Outbound) (st : Option Nat) (u : Option HStr)
    (jp : HStr → Option Json) (hb : buildOutbound r = some ob) :
    send_request r (TransportOutcome.failure st u) jp =
      some (Except.error (Error.mk st u)) := by
  unfold send_request
  rw [hb]

lemma send_success_eq (r : Request) (ob : Outbound) (st : Nat)
    (hs hs2 : List (HStr × HStr)) (t : HStr) (j : Json) (jp : HStr → Option Json)
    (hb : buildOutbound r = some ob) (hd : headersDecode hs = some hs2)
    (hj : jp t = some j) :
    send_request r (TransportOutcome.success st hs (some t)) jp =
      some (Except.ok (Response.mk st (hmCollect hs2) j)) := by
  unfold send_request
  rw [hb]
  simp only [hd, hj]

lemma send_success_hd_none (r : Request) (ob : Outbound) (st : Nat)
    (hs : List (HStr × HStr)) (txt : Option HStr) (jp : HStr → Option Json)
    (hb : buildOutbound r = some ob) (hd : headersDecode hs = none) :
    send_request r (TransportOutcome.success st hs txt) jp = none := by
  unfold send_request
  rw [hb]
  simp only [hd]

lemma send_success_txt_none (r : Request) (ob : Outbound) (st : Nat)
    (hs hs2 : List (HStr × HStr)) (jp : HStr → Option Json)
    (hb : buildOutbound r = some ob) (hd : headersDecode hs = some hs2) :
    send_request r (TransportOutcome.success st hs none) jp = none := by
  unfold send_request
  rw [hb]
  simp only [hd]

lemma send_success_jp_none (r : Request) (ob : Outbound) (st : Nat)
    (hs hs2 : List (HStr × HStr)) (t : HStr) (jp : HStr → Option Json)
    (hb : buildOutbound r = some ob) (hd : headersDecode hs = some hs2)
    (hj : jp t = none) :
    send_request r (TransportOutcome.success st hs (some t)) jp = none := by
  unfold send_request
  rw [hb]
  simp only [hd, hj]

lemma buildOutbound_none_iff (r : Request) :
    buildOutbound r = none ↔
      ((r.method = RequestMethod.GET ∧ parseWithParams r.url r.params = none)
        ∨ ¬ validHeaders r) := by
  obtain ⟨b, h, m, u, p⟩ := r
  cases m
  · rcases hp : parseWithParams u p with _ | u0
    · simp [buildOutbound, buildTarget, hp]
    · by_cases hv : validHeaders (Request.mk b h RequestMethod.GET u p)
      · simp [buildOutbound, buildTarget, hp, hv]
      · simp [buildOutbound, buildTarget, hp, hv]
  · by_cases hv : validHeaders (Request.mk b h RequestMethod.POST u p)
    · simp [buildOutbound, buildTarget, hv]
    · simp [buildOutbound, buildTarget, hv]

lemma headersDecode_pointwise : ∀ (hs hs2 : List (HStr × HStr)),
    headersDecode hs = some hs2 →
    hs2.map Prod.fst = hs.map Prod.fst ∧
    ∀ p ∈ hs, ∃ v, headerValueToStr p.2 = some v ∧ (p.1, v) ∈ hs2 := by
  intro hs
  induction hs with
  | nil =>
    intro hs2 h
    rw [headersDecode, Option.some.injEq] at h
    subst h
    simp
  | cons p t ih =>
    intro hs2 h
    rcases hv : headerValueToStr p.2 with _ | v <;>
      rcases ht : headersDecode t with _ | t2 <;>
      rw [headersDecode, hv, ht] at h <;> simp at h
    subst h
    obtain ⟨ihn, ihp⟩ := ih t2 ht
    constructor
    · simp [ihn]
    · intro x hx
      rcases List.mem_cons.mp hx with hx | hx
      · subst hx
        exact ⟨v, hv, List.mem_cons_self _ _⟩
      · obtain ⟨v2, hv2, hm2⟩ := ihp x hx
        exact ⟨v2, hv2, List.mem_cons_of_mem _ hm2⟩

/-- C2: classification of failures by send_request: an Error value is
returned exactly for transport failures reached after a successful build;
a panic (modelled none) happens exactly for a failed build or for a
data-shape problem of a transport success (undecodable response header
value, unreadable body text, or a body that the JSON parser rejects); and
the build itself fails exactly for a GET whose URL parameter merge fails
or for a stored header that does not parse. -/
theorem c2_error_classification (r : Request) (oc : TransportOutcome)
    (jp : HStr → Option Json) :
    ((∃ e, send_request r oc jp = some (Except.error e)) ↔
      ((buildOutbound r).isSome = true ∧ ∃ st u, oc = TransportOutcome.failure st u))
    ∧ (send_request r oc jp = none ↔
      (buildOutbound r = none ∨
        ∃ st hs txt, oc = TransportOutcome.success st hs txt ∧
          (headersDecode hs = none ∨ txt = none ∨ ∃ t, txt = some t ∧ jp t = none)))
    ∧ (buildOutbound r = none ↔
      ((r.method = RequestMethod.GET ∧ parseWithParams r.url r.params = none)
        ∨ ¬ validHeaders r)) := by
  refine ⟨?_, ?_, buildOutbound_none_iff r⟩
  · rcases hb : buildOutbound r with _ | ob
    · have hsend := send_build_none r oc jp hb
      simp [hsend, hb]
    · cases oc with
      | failure st u =>
        have hsend := send_failure r ob st u jp hb
        simp [hsend, hb]
      | success st hs txt =>
        rcases hd : headersDecode hs with _ | hs2
        · have hsend := send_success_hd_none r ob st hs txt jp hb hd
          simp [hsend, hb]
        · rcases txt with _ | t
          · have hsend := send_success_txt_none r ob st hs hs2 jp hb hd
            simp [hsend, hb]
          · rcases hj : jp t with _ | j
            · have hsend := send_success_jp_none r ob st hs hs2 t jp hb hd hj
              simp [hsend, hb]
            · have hsend := send_success_eq r ob st hs hs2 t j jp hb hd hj
              simp [hsend, hb]
  · rcases hb : buildOutbound r with _ | ob
    · have hsend := send_build_none r oc jp hb
      rw [hsend]
      exact ⟨fun _ => Or.inl rfl, fun _ => rfl⟩
    · cases oc with
      | failure st u =>
        have hsend := send_failure r ob st u jp hb
        rw [hsend]
        constructor
        · intro h
          exact absurd h (by simp)
        · rintro (h | ⟨st2, hs3, txt2, heq, hbad⟩)
          · exact absurd h (by simp)
          · exact absurd heq (by simp)
      | success st hs txt =>
        rcases hd : headersDecode hs with _ | hs2
        · have hsend := send_success_hd_none r ob st hs txt jp hb hd
          rw [hsend]
          exact ⟨fun _ => Or.inr ⟨st, hs, txt, rfl, Or.inl hd⟩, fun _ => rfl⟩
        · rcases txt with _ | t
          · have hsend := send_success_txt_none r ob st hs hs2 jp hb hd
            rw [hsend]
            exact ⟨fun _ => Or.inr ⟨st, hs, none, rfl, Or.inr (Or.inl rfl)⟩, fun _ => rfl⟩
          · rcases hj : jp t with _ | j
            · have hsend := send_success_jp_none r ob st hs hs2 t jp hb hd hj
              rw [hsend]
              exact ⟨fun _ => Or.inr ⟨st, hs, some t, rfl, Or.inr (Or.inr ⟨t, rfl, hj⟩)⟩,
                fun _ => rfl⟩
            · have hsend := send_success_eq r ob st hs hs2 t j jp hb hd hj
              rw [hsend]
              constructor
              · intro h
                exact absurd h (by simp)
              · rintro (h | ⟨st2, hs3, txt2, heq, hbad⟩)
                · exact absurd h (by simp)
                · cases heq
                  rcases hbad with h2 | h2 | ⟨t2, ht2, h2⟩
                  · rw [hd] at h2
                    exact absurd h2 (by simp)
                  · exact absurd h2 (by simp)
                  · rw [Option.some.injEq] at ht2
                    subst ht2
                    rw [hj] at h2
                    exact absurd h2 (by simp)

/-- A well-formed request used to exercise the transport-failure path. -/
def req2 : Request :=
  Request.mk none [] RequestMethod.POST (str "https://example.com/post") []

/-- A JSON parser stub accepting everything. -/
def jpAny : HStr → Option Json := fun _ => some Json.null

/-- C2 witness: a transport failure on a well-formed request comes back as
a recoverable Error value. -/
theorem c2_error_classification_witness :
    ∃ e, send_request req2 (TransportOutcome.failure none (some (str "https://example.com/post")))
      jpAny = some (Except.error e) :=
  (c2_error_classification req2
      (TransportOutcome.failure none (some (str "https://example.com/post"))) jpAny).1.mpr
    ⟨by decide, none, some (str "https://example.com/post"), rfl⟩

/-- C3: for a GET request whose stored URL parses, the outbound call
targets the parsed URL with the params mapping appended to the existing
query, so every parameter pair is contained in the effective query. -/
theorem c3_get_params (r : Request) (u0 : Url)
    (hm : r.method = RequestMethod.GET)
    (hu : urlParse r.url = some u0)
    (hh : validHeaders r) :
    buildOutbound r = some (Outbound.mk RequestMethod.GET
      (UrlTarget.parsed (Url.mk u0.base (u0.query ++ r.params)))
      (r.headers.map (fun p => (p.1.map lowChar, p.2))) none)
    ∧ ∀ p ∈ r.params, p ∈ u0.query ++ r.params := by
  constructor
  · unfold buildOutbound buildTarget parseWithParams
    rw [hm, hu]
    simp [hh]
  · intro p hp
    exact List.mem_append_right _ hp

/-- The GET request of the spec example: example.com/get with the
name=john parameter. -/
def req3 : Request :=
  Request.mk none [] RequestMethod.GET (str "https://example.com/get")
    [(str "name", str "john")]

/-- The parse of the example URL: no pre-existing query. -/
def url3 : Url := Url.mk (str "https://example.com/get") []

/-- C3 witness: the example URL merged with name=john produces an
effective query containing that pair. -/
theorem c3_get_params_witness :
    buildOutbound req3 = some (Outbound.mk RequestMethod.GET
      (UrlTarget.parsed (Url.mk url3.base (url3.query ++ req3.params)))
      (req3.headers.map (fun p => (p.1.map lowChar, p.2))) none)
    ∧ ∀ p ∈ req3.params, p ∈ url3.query ++ req3.params :=
  c3_get_params req3 url3 rfl (by decide) (by decide)

/-- C4: for a POST request the outbound call uses the stored URL exactly
as it is, params is not applied, and no body is attached, whatever body
the request stores. -/
theorem c4_post_raw (r : Request) (hm : r.method = RequestMethod.POST)
    (hh : validHeaders r) :
    buildOutbound r = some (Outbound.mk RequestMethod.POST (UrlTarget.raw r.url)
      (r.headers.map (fun p => (p.1.map lowChar, p.2))) none) := by
  unfold buildOutbound buildTarget
  rw [hm]
  simp [hh]

/-- A POST request storing a body and params. -/
def req4 : Request :=
  Request.mk (some (str "payload")) [] RequestMethod.POST (str "https://example.com/post")
    [(str "x", str "y")]

/-- C4 witness: a POST with a stored body and params goes out on the raw
URL with no body attached. -/
theorem c4_post_raw_witness :
    buildOutbound req4 = some (Outbound.mk RequestMethod.POST (UrlTarget.raw req4.url)
      (req4.headers.map (fun p => (p.1.map lowChar, p.2))) none) :=
  c4_post_raw req4 rfl (by decide)

/-- A well-formed request used for the response-shape claims. -/
def req5 : Request :=
  Request.mk none [] RequestMethod.POST (str "https://example.com/post") []

/-- C5 counterexample: the transport can report two headers under one name
(as HTTP allows); the set-cookie value a decodes, yet the returned
Response keeps only the later pair, so not every response header is
contained in the headers mapping with its value. -/
theorem c5_counterexample :
    send_request req5 (TransportOutcome.success 200
        [(str "set-cookie", str "a"), (str "set-cookie", str "b")] (some (str "x"))) jpAny =
      some (Except.ok (Response.mk 200 [(str "set-cookie", str "b")] Json.null))
    ∧ (str "set-cookie", str "a") ∈ [(str "set-cookie", str "a"), (str "set-cookie", str "b")]
    ∧ headerValueToStr (str "a") = some (str "a")
    ∧ (str "set-cookie", str "a") ∉ [(str "set-cookie", str "b")] :=
  ⟨rfl, by decide, by decide, by decide⟩

/-- C5 (amended): on a transport success whose response header names are
pairwise distinct, send_request returns a Response copying the status
verbatim, whose body is the parsed JSON document, and whose headers
mapping contains every response header under its name with its decoded
text value; with a repeated name only the last pair in iteration order
survives the HashMap collection. -/
theorem c5_success_shape (r : Request) (ob : Outbound) (st : Nat)
    (hs hs2 : List (HStr × HStr)) (t : HStr) (j : Json) (jp : HStr → Option Json)
    (hb : buildOutbound r = some ob)
    (hd : headersDecode hs = some hs2)
    (hnd : (hs.map Prod.fst).Nodup)
    (hj : jp t = some j) :
    send_request r (TransportOutcome.success st hs (some t)) jp =
      some (Except.ok (Response.mk st (hmCollect hs2) j))
    ∧ ∀ p ∈ hs, ∃ v, headerValueToStr p.2 = some v ∧ (p.1, v) ∈ hmCollect hs2 := by
  obtain ⟨hnames, hpts⟩ := headersDecode_pointwise hs hs2 hd
  have hcoll : hmCollect hs2 = hs2 := hmCollect_nodup hs2 (by rw [hnames]; exact hnd)
  refine ⟨send_success_eq r ob st hs hs2 t j jp hb hd hj, ?_⟩
  intro p hp
  obtain ⟨v, hv, hmem⟩ := hpts p hp
  exact ⟨v, hv, by rw [hcoll]; exact hmem⟩

/-- The outbound call matching req5. -/
def ob5 : Outbound :=
  Outbound.mk RequestMethod.POST (UrlTarget.raw (str "https://example.com/post")) [] none

/-- C5 witness: a 200 success with one content-type header and a parsed
body yields the Response with that status, header and body. -/
theorem c5_success_shape_witness :
    send_request req5 (TransportOutcome.success 200
        [(str "content-type", str "application/json")] (some (str "x"))) jpAny =
      some (Except.ok (Response.mk 200
        (hmCollect [(str "content-type", str "application/json")]) Json.null))
    ∧ ∀ p ∈ [(str "content-type", str "application/json")],
        ∃ v, headerValueToStr p.2 = some v ∧
          (p.1, v) ∈ hmCollect [(str "content-type", str "application/json")] :=
  c5_success_shape req5 ob5 200 [(str "content-type", str "application/json")]
    [(str "content-type", str "application/json")] (str "x") Json.null jpAny rfl (by decide)
    (by decide) rfl

/-- C6: a transport failure reached after a successful build is returned
as an Error value carrying exactly the optional status code and the
optional URL the transport attributed, each independently present or
absent. -/
theorem c6_failure_shape (r : Request) (ob : Outbound) (st : Option Nat)
    (u : Option HStr) (jp : HStr → Option Json) (hb : buildOutbound r = some ob) :
    send_request r (TransportOutcome.failure st u) jp =
      some (Except.error (Error.mk st u)) :=
  send_failure r ob st u jp hb

/-- C6 witness: a failure with a status but no URL is classified as an
Error with exactly those fields. -/
theorem c6_failure_shape_witness :
    send_request req2 (TransportOutcome.failure (some 502) none) jpAny =
      some (Except.error (Error.mk (some 502) none)) :=
  c6_failure_shape req2 (Outbound.mk RequestMethod.POST
    (UrlTarget.raw (str "https://example.com/post")) [] none) (some 502) none jpAny rfl
